import Mathlib

/-!
A shallow embedding of scripts/hash_calc.cpp: the hash_file entry point and its
BUILD_CLI main wrapper, over an abstract model of the OpenSSL EVP digest library.
Bytes are Nat values below 256; the caller-supplied output buffer is a list of
characters together with its declared capacity.
-/

/-- EVP_MAX_MD_SIZE from openssl/evp.h: the largest digest the library produces. -/
def EVP_MAX_MD_SIZE : Nat := 64

/-- The read-loop chunk size: sizeof(buf) for the local char buf[4096]. -/
def CHUNK_SIZE : Nat := 4096

/-- An EVP digest algorithm descriptor (const EVP_MD*). The digest field maps a
full input byte sequence to the digest bytes. The two invariants are the library
contract relied on by the C code: EVP_DigestFinal_ex writes at most
EVP_MAX_MD_SIZE bytes into the local hash array, each one an unsigned char. -/
structure EVP_MD where
  digest : List Nat → List Nat
  digest_byte_lt : ∀ l, ∀ b ∈ digest l, b < 256
  digest_len_le : ∀ l, (digest l).length ≤ EVP_MAX_MD_SIZE

/-- The ambient environment of one hash_file call: the digest registry after
OpenSSL_add_all_digests (queried by EVP_get_digestbyname), whether
EVP_MD_CTX_new succeeds, and which paths open readably together with their full
byte contents (std::ifstream in binary mode). -/
structure Env where
  getDigestByName : String → Option EVP_MD
  ctxAlloc : Bool
  readFile : String → Option (List Nat)

/-- Fuel-driven chunking; the fuel bounds the recursion depth, and the input
length is enough fuel whenever the chunk size is positive. -/
def chunksGo (n : Nat) : Nat → List Nat → List (List Nat)
  | _, [] => []
  | 0, _ :: _ => []
  | fuel + 1, x :: xs => (x :: xs).take n :: chunksGo n fuel ((x :: xs).drop n)

/-- The chunk sequence the while loop feeds to EVP_DigestUpdate: full chunks of
size n in file order, then the final partial chunk when it is non-empty (when
file.read fails short, gcount gives the partial count; a zero gcount ends the
loop without a further update). -/
def chunksOf (n : Nat) (l : List Nat) : List (List Nat) := chunksGo n l.length l

/-- The digest-context accumulation over the read loop: each EVP_DigestUpdate
call appends its chunk to the context state, starting from the freshly
initialized empty context. -/
def digestFeed (chunks : List (List Nat)) : List Nat :=
  chunks.foldl (fun acc c => acc ++ c) []

/-- The sixteen characters the %x conversion uses: lowercase hexadecimal digits. -/
def hexDigits : List Char := ("0123456789abcdef").toList

/-- sprintf(out + i * 2, "%02x", hash[i]) on an unsigned char value: two
lowercase hex characters, high nibble first. -/
def hexByte (b : Nat) : List Char :=
  [hexDigits.getD (b / 16) '0', hexDigits.getD (b % 16) '0']

/-- The hex encoding of the digest bytes: two characters per byte, digest order. -/
def hexEncode (bs : List Nat) : List Char := (bs.map hexByte).flatten

/-- The null terminator character. -/
def NUL : Char := Char.ofNat 0

/-- Writing pre over the start of a buffer: bytes past pre keep their old values. -/
def bufWrite (pre buf : List Char) : List Char := pre ++ buf.drop pre.length

/-- The C string a char buffer holds: the characters before the first null
terminator, which is what std::cout << out prints. -/
def cString (buf : List Char) : List Char := buf.takeWhile (fun c => c != NUL)

/-- hash_file(algo_name, file_path, out, out_len): resolve the algorithm name,
allocate a digest context, open the file, stream it through the digest in
CHUNK_SIZE chunks, and hex-encode the result into out unless out_len is below
len * 2 + 1. The result pairs the returned status with the buffer contents
after the call; every failure path leaves the buffer unchanged. -/
def hash_file (env : Env) (algo_name file_path : String) (out : List Char)
    (out_len : Nat) : Nat × List Char :=
  match env.getDigestByName algo_name with
  | none => (1, out)
  | some md =>
    if env.ctxAlloc then
      match env.readFile file_path with
      | none => (1, out)
      | some bytes =>
        let hash := md.digest (digestFeed (chunksOf CHUNK_SIZE bytes))
        if out_len < hash.length * 2 + 1 then (1, out)
        else (0, bufWrite (hexEncode hash ++ [NUL]) out)
    else (1, out)

/-- The one-shot reference computation, following the spec sentence "the same
digest as hashing the file's entire byte sequence at once": identical to
hash_file except that the whole byte sequence reaches the digest in one step. -/
def hash_file_oneshot (env : Env) (algo_name file_path : String) (out : List Char)
    (out_len : Nat) : Nat × List Char :=
  match env.getDigestByName algo_name with
  | none => (1, out)
  | some md =>
    if env.ctxAlloc then
      match env.readFile file_path with
      | none => (1, out)
      | some bytes =>
        let hash := md.digest bytes
        if out_len < hash.length * 2 + 1 then (1, out)
        else (0, bufWrite (hexEncode hash ++ [NUL]) out)
    else (1, out)

/-- The observable outcome of one CLI run: exit status, the characters printed
to standard output, whether the usage message went to standard error, and
whether hash_file was invoked at all. -/
structure CliResult where
  exitCode : Nat
  stdoutChars : List Char
  usageToStderr : Bool
  invokedHash : Bool
deriving DecidableEq

/-- main(argc, argv) in BUILD_CLI mode. argv is the whole argument vector, the
program name included, so argc is argv.length; stackOut models the
indeterminate initial contents of the local char out[EVP_MAX_MD_SIZE * 2 + 1]
buffer. -/
def main_model (env : Env) (argv : List String) (stackOut : List Char) : CliResult :=
  match argv with
  | [_, algo, file] =>
    let r := hash_file env algo file stackOut (EVP_MAX_MD_SIZE * 2 + 1)
    if r.1 != 0 then ⟨1, [], false, true⟩
    else ⟨0, cString r.2 ++ ['\n'], false, true⟩
  | _ => ⟨1, [], true, false⟩

/-- A concrete digest algorithm used to instantiate the theorems: it digests a
byte sequence to the single byte holding the input length mod 256. -/
def mdTest : EVP_MD where
  digest := fun l => [l.length % 256]
  digest_byte_lt := by
    intro l b hb
    simp only [List.mem_singleton] at hb
    subst hb
    exact Nat.mod_lt _ (by decide)
  digest_len_le := by
    intro l
    simp [EVP_MAX_MD_SIZE]

/-- A concrete environment: one registered algorithm name, a three-byte file
"f", an empty file "empty", and a successful context allocation. -/
def envTest : Env where
  getDigestByName := fun s => if s = "md5" then some mdTest else none
  ctxAlloc := true
  readFile := fun p =>
    if p = "f" then some [97, 98, 99]
    else if p = "empty" then some []
    else none

/-- A small concrete output buffer. -/
def out0 : List Char := List.replicate 7 'x'

/-- A concrete stand-in for the CLI stack buffer of capacity 129. -/
def stackBuf : List Char := List.replicate (EVP_MAX_MD_SIZE * 2 + 1) 'A'

theorem foldl_append_flatten (cs : List (List Nat)) (acc : List Nat) :
    cs.foldl (fun a c => a ++ c) acc = acc ++ cs.flatten := by
  induction cs generalizing acc with
  | nil => simp
  | cons c cs ih => simp [ih, List.append_assoc]

theorem chunksGo_flatten (n : Nat) (hn : 0 < n) :
    ∀ (fuel : Nat) (l : List Nat), l.length ≤ fuel → (chunksGo n fuel l).flatten = l := by
  intro fuel
  induction fuel with
  | zero =>
    intro l hl
    cases l with
    | nil => rfl
    | cons x xs => simp at hl
  | succ fuel ih =>
    intro l hl
    cases l with
    | nil => rfl
    | cons x xs =>
      have hdrop : ((x :: xs).drop n).length ≤ fuel := by
        rw [List.length_drop]
        simp only [List.length_cons] at hl ⊢
        omega
      calc (chunksGo n (fuel + 1) (x :: xs)).flatten
          = (x :: xs).take n ++ (chunksGo n fuel ((x :: xs).drop n)).flatten := by
            rfl
        _ = (x :: xs).take n ++ (x :: xs).drop n := by rw [ih _ hdrop]
        _ = x :: xs := List.take_append_drop n (x :: xs)

theorem chunksOf_flatten (n : Nat) (hn : 0 < n) (l : List Nat) :
    (chunksOf n l).flatten = l :=
  chunksGo_flatten n hn l.length l (Nat.le_refl _)

theorem digestFeed_chunksOf (l : List Nat) :
    digestFeed (chunksOf CHUNK_SIZE l) = l := by
  rw [digestFeed, foldl_append_flatten, List.nil_append]
  exact chunksOf_flatten CHUNK_SIZE (by decide) l

theorem getD_hexDigits_mem (i : Nat) : hexDigits.getD i '0' ∈ hexDigits := by
  rcases Nat.lt_or_ge i hexDigits.length with h | h
  · rw [List.getD_eq_getElem hexDigits '0' h]
    exact List.getElem_mem h
  · rw [List.getD_eq_default hexDigits '0' h]
    decide

theorem mem_hexEncode (bs : List Nat) (c : Char) (hc : c ∈ hexEncode bs) :
    c ∈ hexDigits := by
  simp only [hexEncode, List.mem_flatten] at hc
  obtain ⟨l, hl, hcl⟩ := hc
  simp only [List.mem_map] at hl
  obtain ⟨b, _, rfl⟩ := hl
  simp only [hexByte, List.mem_cons, List.not_mem_nil, or_false] at hcl
  rcases hcl with rfl | rfl
  · exact getD_hexDigits_mem _
  · exact getD_hexDigits_mem _

theorem nul_not_mem_hexEncode (bs : List Nat) : NUL ∉ hexEncode bs := by
  intro h
  have := mem_hexEncode bs NUL h
  revert this
  decide

theorem hexEncode_length (bs : List Nat) : (hexEncode bs).length = 2 * bs.length := by
  induction bs with
  | nil => rfl
  | cons b bs ih =>
    simp only [hexEncode, List.map_cons, List.flatten_cons, List.length_append,
      List.length_cons] at *
    simp only [hexByte, List.length_cons, List.length_nil]
    omega

theorem cString_append_nul (p rest : List Char) (hp : NUL ∉ p) :
    cString (p ++ NUL :: rest) = p := by
  induction p with
  | nil =>
    simp [cString, List.takeWhile_cons]
  | cons c cs ih =>
    have hc : (c != NUL) = true := by
      simp only [bne_iff_ne, ne_eq]
      intro h
      exact hp (by simp [h])
    have hcs : NUL ∉ cs := fun h => hp (List.mem_cons_of_mem c h)
    simp only [List.cons_append, cString, List.takeWhile_cons, hc, if_true]
    exact congrArg (c :: ·) (ih hcs)

theorem hash_file_eq_of_resolved (env : Env) (a f : String) (out : List Char)
    (n : Nat) (md : EVP_MD) (bytes : List Nat)
    (h1 : env.getDigestByName a = some md) (h2 : env.ctxAlloc = true)
    (h3 : env.readFile f = some bytes) :
    hash_file env a f out n =
      if n < 2 * (md.digest bytes).length + 1 then (1, out)
      else (0, hexEncode (md.digest bytes) ++
            NUL :: out.drop (2 * (md.digest bytes).length + 1)) := by
  unfold hash_file
  rw [h1, h2]
  simp only [if_true, h3, digestFeed_chunksOf]
  have hmul : (md.digest bytes).length * 2 = 2 * (md.digest bytes).length :=
    Nat.mul_comm _ _
  rw [hmul]
  by_cases hlen : n < 2 * (md.digest bytes).length + 1
  · rw [if_pos hlen, if_pos hlen]
  · rw [if_neg hlen, if_neg hlen, bufWrite]
    have hlenp : (hexEncode (md.digest bytes) ++ [NUL]).length
        = 2 * (md.digest bytes).length + 1 := by
      rw [List.length_append, hexEncode_length]
      rfl
    rw [hlenp, List.append_assoc, List.singleton_append]

theorem hash_file_status_cases (env : Env) (a f : String) (out : List Char)
    (n : Nat) (h : (hash_file env a f out n).1 = 0) :
    ∃ md bytes, env.getDigestByName a = some md ∧ env.ctxAlloc = true ∧
      env.readFile f = some bytes ∧ 2 * (md.digest bytes).length + 1 ≤ n ∧
      hash_file env a f out n =
        (0, hexEncode (md.digest bytes) ++
          NUL :: out.drop (2 * (md.digest bytes).length + 1)) := by
  cases hmd : env.getDigestByName a with
  | none =>
    have hcontra : hash_file env a f out n = (1, out) := by
      unfold hash_file
      rw [hmd]
    rw [hcontra] at h
    exact absurd h Nat.one_ne_zero
  | some md =>
    cases hctx : env.ctxAlloc with
    | false =>
      have hcontra : hash_file env a f out n = (1, out) := by
        unfold hash_file
        rw [hmd, hctx]
        rfl
      rw [hcontra] at h
      exact absurd h Nat.one_ne_zero
    | true =>
      cases hrf : env.readFile f with
      | none =>
        have hcontra : hash_file env a f out n = (1, out) := by
          unfold hash_file
          rw [hmd, hctx]
          simp only [if_true, hrf]
        rw [hcontra] at h
        exact absurd h Nat.one_ne_zero
      | some bytes =>
        have heq := hash_file_eq_of_resolved env a f out n md bytes hmd hctx hrf
        by_cases hlen : n < 2 * (md.digest bytes).length + 1
        · rw [heq, if_pos hlen] at h
          exact absurd h Nat.one_ne_zero
        · rw [if_neg hlen] at heq
          exact ⟨md, bytes, rfl, rfl, rfl, by omega, heq⟩

/-- C1: whenever hash_file returns status 0, the output buffer afterwards holds
a null-terminated string of exactly 2 × digest_length characters — each digest
byte encoded as two lowercase hexadecimal characters, in digest order — with
the null terminator at position 2 × digest_length. -/
theorem hash_file_success_hex (env : Env) (a f : String) (out : List Char)
    (n : Nat) (h : (hash_file env a f out n).1 = 0) :
    ∃ md bytes, env.getDigestByName a = some md ∧ env.readFile f = some bytes ∧
      cString (hash_file env a f out n).2 = hexEncode (md.digest bytes) ∧
      (cString (hash_file env a f out n).2).length = 2 * (md.digest bytes).length ∧
      (∀ c ∈ cString (hash_file env a f out n).2, c ∈ hexDigits) ∧
      ((hash_file env a f out n).2)[2 * (md.digest bytes).length]? = some NUL := by
  obtain ⟨md, bytes, hmd, hctx, hrf, hlen, heq⟩ :=
    hash_file_status_cases env a f out n h
  refine ⟨md, bytes, hmd, hrf, ?_, ?_, ?_, ?_⟩
  · rw [heq]
    exact cString_append_nul _ _ (nul_not_mem_hexEncode _)
  · rw [heq]
    rw [cString_append_nul _ _ (nul_not_mem_hexEncode _)]
    exact hexEncode_length _
  · intro c hc
    rw [heq, cString_append_nul _ _ (nul_not_mem_hexEncode _)] at hc
    exact mem_hexEncode _ c hc
  · rw [heq]
    have hlen2 : (hexEncode (md.digest bytes)).length = 2 * (md.digest bytes).length :=
      hexEncode_length _
    rw [List.getElem?_append_right (by omega)]
    rw [hlen2, Nat.sub_self]
    simp

/-- C1 witness: a concrete successful call of hash_file. -/
theorem hash_file_success_hex_witness :
    ∃ md bytes, envTest.getDigestByName "md5" = some md ∧
      envTest.readFile "f" = some bytes ∧
      cString (hash_file envTest "md5" "f" out0 7).2 = hexEncode (md.digest bytes) ∧
      (cString (hash_file envTest "md5" "f" out0 7).2).length
        = 2 * (md.digest bytes).length ∧
      (∀ c ∈ cString (hash_file envTest "md5" "f" out0 7).2, c ∈ hexDigits) ∧
      ((hash_file envTest "md5" "f" out0 7).2)[2 * (md.digest bytes).length]?
        = some NUL :=
  hash_file_success_hex envTest "md5" "f" out0 7 (by decide)

/-- C2: the chunked streaming loop refines the one-shot digest: the chunk
sequence of any byte list concatenates back to the whole list, so the digest
context receives exactly the file contents, and hash_file agrees everywhere
with the variant that hashes the entire byte sequence at once. -/
theorem hash_file_chunked_eq_oneshot (env : Env) (a f : String) (out : List Char)
    (n : Nat) :
    (∀ bytes : List Nat, digestFeed (chunksOf CHUNK_SIZE bytes) = bytes) ∧
    hash_file env a f out n = hash_file_oneshot env a f out n := by
  refine ⟨digestFeed_chunksOf, ?_⟩
  unfold hash_file hash_file_oneshot
  simp only [digestFeed_chunksOf]

/-- C3: determinism as a two-run property: two invocations against environments
that resolve the algorithm name identically and read the same file contents
(and in which context allocation succeeds) return the same status and the same
buffer contents. -/
theorem hash_file_deterministic (env1 env2 : Env) (a f : String) (out : List Char)
    (n : Nat) (halg : env1.getDigestByName a = env2.getDigestByName a)
    (hctx1 : env1.ctxAlloc = true) (hctx2 : env2.ctxAlloc = true)
    (hfile : env1.readFile f = env2.readFile f) :
    hash_file env1 a f out n = hash_file env2 a f out n := by
  unfold hash_file
  rw [halg]
  simp only [hctx1, hctx2, hfile]

/-- C3 witness: two concrete runs on the same algorithm and file agree. -/
theorem hash_file_deterministic_witness :
    hash_file envTest "md5" "f" out0 7 = hash_file envTest "md5" "f" out0 7 :=
  hash_file_deterministic envTest envTest "md5" "f" out0 7 rfl rfl rfl rfl

/-- C4: on an unknown algorithm name, and on an unopenable file under a
resolvable algorithm, hash_file returns the non-zero status 1 and hands back
the output buffer unchanged. -/
theorem hash_file_failure_no_write (env : Env) (a f : String) (out : List Char)
    (n : Nat) :
    (env.getDigestByName a = none → hash_file env a f out n = (1, out)) ∧
    (∀ md, env.getDigestByName a = some md → env.readFile f = none →
      hash_file env a f out n = (1, out)) := by
  constructor
  · intro h
    unfold hash_file
    rw [h]
  · intro md h1 h2
    unfold hash_file
    rw [h1]
    cases hctx : env.ctxAlloc
    · rfl
    · simp only [if_true, h2]

/-- C4 witness: an unregistered name and a missing file both fail with the
buffer untouched. -/
theorem hash_file_failure_no_write_witness :
    hash_file envTest "bogus" "f" out0 7 = (1, out0) ∧
    hash_file envTest "md5" "missing" out0 7 = (1, out0) :=
  ⟨(hash_file_failure_no_write envTest "bogus" "f" out0 7).1 rfl,
   (hash_file_failure_no_write envTest "md5" "missing" out0 7).2 mdTest rfl rfl⟩

/-- C5: when the declared capacity is below 2 × digest_length + 1 for the
resolved algorithm, hash_file returns the non-zero status 1 and the output
buffer comes back byte-for-byte unchanged: the capacity check precedes every
write. -/
theorem hash_file_buffer_too_small (env : Env) (a f : String) (out : List Char)
    (n : Nat) (md : EVP_MD) (bytes : List Nat)
    (h1 : env.getDigestByName a = some md) (h2 : env.ctxAlloc = true)
    (h3 : env.readFile f = some bytes)
    (h4 : n < 2 * (md.digest bytes).length + 1) :
    hash_file env a f out n = (1, out) := by
  rw [hash_file_eq_of_resolved env a f out n md bytes h1 h2 h3, if_pos h4]

/-- C5 witness: a two-byte capacity is below the three bytes a one-byte digest
needs, and the call fails with the buffer untouched. -/
theorem hash_file_buffer_too_small_witness :
    hash_file envTest "md5" "f" out0 2 = (1, out0) :=
  hash_file_buffer_too_small envTest "md5" "f" out0 2 mdTest [97, 98, 99]
    rfl rfl rfl (by decide)

/-- C6: on an empty file the read loop produces no chunks, so nothing reaches
the digest context before finalization, and hash_file succeeds with the hex
encoding of the digest of the empty byte sequence. -/
theorem hash_file_empty_file (env : Env) (a f : String) (out : List Char)
    (n : Nat) (md : EVP_MD)
    (h1 : env.getDigestByName a = some md) (h2 : env.ctxAlloc = true)
    (h3 : env.readFile f = some []) (h4 : 2 * (md.digest []).length + 1 ≤ n) :
    chunksOf CHUNK_SIZE [] = [] ∧
    digestFeed (chunksOf CHUNK_SIZE []) = [] ∧
    hash_file env a f out n =
      (0, hexEncode (md.digest []) ++
        NUL :: out.drop (2 * (md.digest []).length + 1)) := by
  refine ⟨rfl, rfl, ?_⟩
  rw [hash_file_eq_of_resolved env a f out n md [] h1 h2 h3, if_neg (by omega)]

/-- C6 witness: hashing the registered empty file succeeds with the digest of
zero bytes. -/
theorem hash_file_empty_file_witness :
    chunksOf CHUNK_SIZE [] = [] ∧
    digestFeed (chunksOf CHUNK_SIZE []) = [] ∧
    hash_file envTest "md5" "empty" out0 7 =
      (0, hexEncode (mdTest.digest []) ++
        NUL :: out0.drop (2 * (mdTest.digest []).length + 1)) :=
  hash_file_empty_file envTest "md5" "empty" out0 7 mdTest rfl rfl rfl (by decide)

/-- C7: on any argument count other than three (program name plus two
positional arguments) the CLI prints the usage message to standard error,
exits with status 1, prints nothing to standard output, and never invokes
hash_file. -/
theorem main_wrong_argc (env : Env) (argv : List String) (stackOut : List Char)
    (h : argv.length ≠ 3) :
    main_model env argv stackOut = ⟨1, [], true, false⟩ := by
  rcases argv with _ | ⟨a, _ | ⟨b, _ | ⟨c, _ | ⟨d, tl⟩⟩⟩⟩
  · rfl
  · rfl
  · rfl
  · exact absurd rfl h
  · rfl

/-- C7 witness: one argument triggers the usage path. -/
theorem main_wrong_argc_witness :
    main_model envTest ["prog"] stackBuf = ⟨1, [], true, false⟩ :=
  main_wrong_argc envTest ["prog"] stackBuf (by decide)

/-- C8: with exactly two positional arguments the CLI exits 1 with no standard
output when hash_file fails, and on success prints exactly the hex digest
followed by one newline and exits 0. -/
theorem main_two_args (env : Env) (p a f : String) (stackOut : List Char) :
    ((hash_file env a f stackOut (EVP_MAX_MD_SIZE * 2 + 1)).1 ≠ 0 →
      main_model env [p, a, f] stackOut = ⟨1, [], false, true⟩) ∧
    ((hash_file env a f stackOut (EVP_MAX_MD_SIZE * 2 + 1)).1 = 0 →
      ∃ md bytes, env.getDigestByName a = some md ∧ env.readFile f = some bytes ∧
        main_model env [p, a, f] stackOut =
          ⟨0, hexEncode (md.digest bytes) ++ ['\n'], false, true⟩) := by
  constructor
  · intro h
    unfold main_model
    have hb : ((hash_file env a f stackOut (EVP_MAX_MD_SIZE * 2 + 1)).1 != 0) = true := by
      simpa using h
    simp only [hb, if_true]
  · intro h
    obtain ⟨md, bytes, hmd, hctx, hrf, hlen, heq⟩ :=
      hash_file_status_cases env a f stackOut (EVP_MAX_MD_SIZE * 2 + 1) h
    refine ⟨md, bytes, hmd, hrf, ?_⟩
    have hmain : main_model env [p, a, f] stackOut =
        if ((hash_file env a f stackOut (EVP_MAX_MD_SIZE * 2 + 1)).1 != 0) = true
        then ⟨1, [], false, true⟩
        else ⟨0, cString (hash_file env a f stackOut (EVP_MAX_MD_SIZE * 2 + 1)).2
          ++ ['\n'], false, true⟩ := rfl
    rw [hmain, heq]
    simp [cString_append_nul (hexEncode (md.digest bytes))
      (List.drop (2 * (md.digest bytes).length + 1) stackOut)
      (nul_not_mem_hexEncode (md.digest bytes))]

/-- C8 witness: a failing run prints nothing and exits 1; a succeeding run
prints the hex digest and a newline and exits 0. -/
theorem main_two_args_witness :
    main_model envTest ["prog", "bogus", "f"] stackBuf = ⟨1, [], false, true⟩ ∧
    (∃ md bytes, envTest.getDigestByName "md5" = some md ∧
      envTest.readFile "f" = some bytes ∧
      main_model envTest ["prog", "md5", "f"] stackBuf =
        ⟨0, hexEncode (md.digest bytes) ++ ['\n'], false, true⟩) :=
  ⟨(main_two_args envTest "prog" "bogus" "f" stackBuf).1 (by decide),
   (main_two_args envTest "prog" "md5" "f" stackBuf).2 (by decide)⟩

/-- C9: hash_file returns exactly 0 or exactly 1 on every input: each failure
cause collapses to the single non-zero value 1. -/
theorem hash_file_status_zero_or_one (env : Env) (a f : String) (out : List Char)
    (n : Nat) :
    (hash_file env a f out n).1 = 0 ∨ (hash_file env a f out n).1 = 1 := by
  unfold hash_file
  cases env.getDigestByName a with
  | none => right; rfl
  | some md =>
    cases env.ctxAlloc with
    | false => right; rfl
    | true =>
      cases env.readFile f with
      | none => right; rfl
      | some bytes =>
        by_cases hlen :
          n < (md.digest (digestFeed (chunksOf CHUNK_SIZE bytes))).length * 2 + 1
        · right
          simp [hlen]
        · left
          simp [hlen]

/-- C10: the CLI stack buffer capacity EVP_MAX_MD_SIZE * 2 + 1 covers every
digest the library can produce, so with a resolved algorithm, a live context
and a readable file, the buffer-too-small branch is unreachable from the CLI
and hash_file succeeds. -/
theorem cli_capacity_sufficient (env : Env) (a f : String) (out : List Char)
    (md : EVP_MD) (bytes : List Nat)
    (h1 : env.getDigestByName a = some md) (h2 : env.ctxAlloc = true)
    (h3 : env.readFile f = some bytes) :
    EVP_MAX_MD_SIZE * 2 + 1 = 129 ∧
    (md.digest bytes).length ≤ EVP_MAX_MD_SIZE ∧
    2 * (md.digest bytes).length + 1 ≤ EVP_MAX_MD_SIZE * 2 + 1 ∧
    (hash_file env a f out (EVP_MAX_MD_SIZE * 2 + 1)).1 = 0 := by
  have hle := md.digest_len_le bytes
  refine ⟨rfl, hle, by omega, ?_⟩
  rw [hash_file_eq_of_resolved env a f out _ md bytes h1 h2 h3,
    if_neg (by omega)]

/-- C10 witness: a concrete CLI-sized call succeeds. -/
theorem cli_capacity_sufficient_witness :
    EVP_MAX_MD_SIZE * 2 + 1 = 129 ∧
    (mdTest.digest [97, 98, 99]).length ≤ EVP_MAX_MD_SIZE ∧
    2 * (mdTest.digest [97, 98, 99]).length + 1 ≤ EVP_MAX_MD_SIZE * 2 + 1 ∧
    (hash_file envTest "md5" "f" stackBuf (EVP_MAX_MD_SIZE * 2 + 1)).1 = 0 :=
  cli_capacity_sufficient envTest "md5" "f" stackBuf mdTest [97, 98, 99]
    rfl rfl rfl
